import Mathlib

/-!
# Verification of the jetstream testing module

A shallow embedding of `jetstream/testing.py`: the dependency flattener
(`_flatten_templates` / `_recurse_dependencies`), the stack status poller
(`_wait_results`), the failure reporter (`_log_failed_stacks`) and the
master-manifest builder (`_parent_template`), together with theorems
settling the specification's claims about them.

Conventions of the embedding:

* A Python `Template` object is a `TemplateObj`; object identity is a `Nat`
  index into a store `Nat → TemplateObj`.  The `prepare_test` hook is
  modelled by splitting a template's dependency list into `origDeps`
  (before the hook) and `addedDeps` (appended by the hook); since the code
  always invokes the hook before reading dependencies, the traversal reads
  `preparedDeps = origDeps ++ addedDeps`.  The trace of hook invocations is
  returned alongside the result (one entry per `prepare_test()` call, in
  call order).
* The Python `dict` keyed by template name is `Dict`: an association list
  in insertion order with unique keys.  `dictSet` models `d[k] = v` /
  `dict.update` entry-merge semantics (replace in place, else append);
  `dictUpdate` models `d.update(d2)`.
* Recursion in `_recurse_dependencies` is modelled with explicit fuel
  (one unit per nested Python call); `none` means the fuel ran out, and
  divergence of the Python code corresponds to `none` for every fuel.
* Machine effects (logging, sleeping) are pure data: the poller records
  the observed statuses, the statuses at which the failure capture fired,
  and the number of sleeps.  Exceptions are `Except` errors.
-/

/-- A template object: `name`, dependency lists before and after the
`prepare_test` hook, the `test_params.dict()` payload and
`resource_name()`. -/
structure TemplateObj where
  name : String
  origDeps : List Nat
  addedDeps : List Nat
  params : List (String × String)
  resourceName : String
  deriving DecidableEq

/-- The dependency list the code reads: `prepare_test()` has already been
invoked, so the hook's appended dependencies are visible. -/
def preparedDeps (t : TemplateObj) : List Nat :=
  t.origDeps ++ t.addedDeps

/-- The accumulator of `_recurse_dependencies`: a Python dict from template
name to template (identity), in insertion order. -/
abbrev Dict := List (String × Nat)

/-- `d.get(k)`: first entry with key `k`. -/
def dictGet : Dict → String → Option Nat
  | [], _ => none
  | (k, v) :: rest, key => if k = key then some v else dictGet rest key

/-- `d[k] = v`: replace the value of an existing key in place, else append
the new entry (CPython dict semantics). -/
def dictSet : Dict → String → Nat → Dict
  | [], key, val => [(key, val)]
  | (k, v) :: rest, key, val =>
      if k = key then (k, val) :: rest else (k, v) :: dictSet rest key val

/-- `d.update(d2)`: merge every entry of `d2` into `d`, overwriting the
values of keys already present. -/
def dictUpdate (d d2 : Dict) : Dict :=
  d2.foldl (fun acc kv => dictSet acc kv.1 kv.2) d

/-- One pass of the `for templ in templates` loop body of
`_recurse_dependencies`, parametrised by the recursive call `recur` used
for nested dependency lists.  `acc` is the accumulator dict, `trace` the
`prepare_test()` invocation trace so far. -/
def recurseStep (recur : List Nat → Option (Dict × List Nat))
    (store : Nat → TemplateObj) :
    List Nat → Dict → List Nat → Option (Dict × List Nat)
  | [], acc, trace => some (acc, trace)
  | i :: rest, acc, trace =>
      let t := store i
      let trace1 := trace ++ [i]
      let acc1 := if (dictGet acc t.name).isSome then acc else dictSet acc t.name i
      if (preparedDeps t).isEmpty then
        recurseStep recur store rest acc1 trace1
      else
        match recur (preparedDeps t) with
        | none => none
        | some (sub, subTr) =>
            recurseStep recur store rest (dictUpdate acc1 sub) (trace1 ++ subTr)

/-- `_recurse_dependencies(templates)`, with explicit fuel bounding the
nesting depth of recursive calls.  Each nested call starts from a fresh
empty dict, exactly as in the source; the caller merges the nested result
with `dict.update`. -/
def recurseDependencies (store : Nat → TemplateObj) :
    Nat → List Nat → Option (Dict × List Nat)
  | 0, _ => none
  | fuel + 1, ids => recurseStep (recurseDependencies store fuel) store ids [] []

/-- `_flatten_templates(templates)`: the `.values()` of the accumulator, in
dict insertion order. -/
def flattenTemplates (store : Nat → TemplateObj) (fuel : Nat) (roots : List Nat) :
    Option (List Nat) :=
  (recurseDependencies store fuel roots).map (fun p => p.1.map Prod.snd)

/-- Template identities transitively reachable from a root list by
following (post-hook) dependency edges. -/
inductive Reaches (store : Nat → TemplateObj) (roots : List Nat) : Nat → Prop where
  | root {i : Nat} : i ∈ roots → Reaches store roots i
  | step {i j : Nat} : Reaches store roots i → j ∈ preparedDeps (store i) →
      Reaches store roots j

/-- Python substring test, on character lists: does `s` start with `p`? -/
def charsStartWith : List Char → List Char → Bool
  | [], _ => true
  | _ :: _, [] => false
  | p :: ps, c :: cs => p == c && charsStartWith ps cs

/-- Python substring test, on character lists: does `pat` occur in `s`? -/
def charsContain (pat : List Char) : List Char → Bool
  | [] => charsStartWith pat []
  | c :: cs => charsStartWith pat (c :: cs) || charsContain pat cs

/-- Python's `pat in s` on strings. -/
def strContains (s pat : String) : Bool :=
  charsContain pat.toList s.toList

/-- Errors the failure-report capture (`_log_failed_stacks`) can raise:
the two collaborator calls failing, or the `KeyError` from indexing a
missing `ResourceStatusReason`. -/
inductive CaptureErr where
  | describeStacksErr
  | describeEventsErr
  | keyErr
  deriving DecidableEq

/-- One element of `describe_stack_events(...)['StackEvents']`.  Optional
fields model dictionary keys that may be absent. -/
structure StackEvent where
  eventId : String
  resourceStatus : Option String
  resourceStatusReason : Option String
  deriving DecidableEq

/-- The collaborator responses seen by `_log_failed_stacks`: whether each
of the two API calls raises, and the data they return otherwise. -/
structure CaptureEnv where
  describeFails : Bool
  stackName : String
  stackStatus : String
  stackStatusReason : Option String
  eventsFail : Bool
  events : List StackEvent
  deriving DecidableEq

/-- What `_log_failed_stacks` logs when it completes: the stack-level
error line and the `(EventId, ResourceStatusReason)` error lines. -/
structure CaptureReport where
  loggedName : String
  loggedStatus : String
  loggedReason : String
  failedEventLogs : List (String × String)
  deriving DecidableEq

/-- The `for e in stack_events_resp['StackEvents']` loop: log every event
whose `ResourceStatus` contains `FAILED`; indexing `ResourceStatusReason`
on such an event raises `KeyError` when the key is absent. -/
def logFailedEvents : List StackEvent → Except CaptureErr (List (String × String))
  | [] => Except.ok []
  | e :: rest =>
      if (match e.resourceStatus with
          | some rs => strContains rs "FAILED"
          | none => false) then
        match e.resourceStatusReason with
        | some r => (logFailedEvents rest).map (fun l => (e.eventId, r) :: l)
        | none => Except.error CaptureErr.keyErr
      else logFailedEvents rest

/-- `_log_failed_stacks(stack_name)`: re-describe the stack, default the
stack-level reason to `"No reason found"` when absent, then fetch and log
the `FAILED` events.  No call is guarded, so every error propagates. -/
def logFailedStacks (env : CaptureEnv) : Except CaptureErr CaptureReport :=
  if env.describeFails then Except.error CaptureErr.describeStacksErr
  else
    let reason := match env.stackStatusReason with
      | some r => r
      | none => "No reason found"
    if env.eventsFail then Except.error CaptureErr.describeEventsErr
    else (logFailedEvents env.events).map
      (fun l => ⟨env.stackName, env.stackStatus, reason, l⟩)

/-- Errors that abort `_wait_results`: an exception escaping the failure
capture, or the status script running out (the loop would poll again). -/
inductive WaitError where
  | captureErr : CaptureErr → WaitError
  | scriptEnded
  deriving DecidableEq

/-- The observable outcome of a completed `_wait_results` run:
the returned boolean (`not stack_failure`), the statuses at which the
failure capture fired, the statuses fetched, and how many 10-second
sleeps happened. -/
structure WaitOutcome where
  success : Bool
  captures : List String
  observed : List String
  sleeps : Nat
  deriving DecidableEq

/-- The `while True` loop of `_wait_results`, consuming one scripted
status per iteration.  `cap` is the (single) failure-capture computation;
its error propagates out of the loop exactly when the capture fires. -/
def waitGo (cap : Except CaptureErr CaptureReport) :
    List String → Bool → List String → List String → Nat →
    Except WaitError WaitOutcome
  | [], _, _, _, _ => Except.error WaitError.scriptEnded
  | s :: rest, flag, caps, obs, sleeps =>
      let obs1 := obs ++ [s]
      if strContains s "COMPLETE" then Except.ok ⟨!flag, caps, obs1, sleeps⟩
      else if strContains s "ROLLBACK" && !flag then
        match cap with
        | Except.error e => Except.error (WaitError.captureErr e)
        | Except.ok _ =>
            if strContains s "ROLLBACK_FAILED" then
              Except.ok ⟨false, caps ++ [s], obs1, sleeps⟩
            else waitGo cap rest true (caps ++ [s]) obs1 (sleeps + 1)
      else
        if strContains s "ROLLBACK_FAILED" then Except.ok ⟨!flag, caps, obs1, sleeps⟩
        else waitGo cap rest flag caps obs1 (sleeps + 1)

/-- `_wait_results(stack_name)` over a script of observed statuses. -/
def waitResults (cap : Except CaptureErr CaptureReport) (script : List String) :
    Except WaitError WaitOutcome :=
  waitGo cap script false [] [] 0

/-- `_wait_results` with the failure capture run against a concrete
collaborator environment. -/
def runWait (env : CaptureEnv) (script : List String) :
    Except WaitError WaitOutcome :=
  waitResults (logFailedStacks env) script

/-- One resource of the master manifest built by `_parent_template`:
keyed by `resource_name()`, with `TemplateURL` and an optional
`Parameters` field. -/
structure ManifestEntry where
  resourceKey : String
  templateURL : String
  parameters : Option (List (String × String))
  deriving DecidableEq

/-- `_parent_template()`: one manifest resource per flattened template,
`TemplateURL = bucket_url + "/" + name`, and `Parameters` only when
`test_params.dict()` is non-empty (Python truthiness of the dict). -/
def parentTemplate (store : Nat → TemplateObj) (bucketUrl : String)
    (ids : List Nat) : List ManifestEntry :=
  ids.map (fun i =>
    { resourceKey := (store i).resourceName
      templateURL := bucketUrl ++ "/" ++ (store i).name
      parameters :=
        if (store i).params.isEmpty then none else some (store i).params })

/-- The accumulator's keys are pairwise distinct (dict invariant). -/
def DictKeysNodup (d : Dict) : Prop :=
  (d.map Prod.fst).Nodup

/-- Every entry's key is the name of the template it maps to. -/
def DictNamesMatch (store : Nat → TemplateObj) (d : Dict) : Prop :=
  ∀ p ∈ d, (store p.2).name = p.1

/-- Acyclicity of the dependency references by object identity: a rank
that strictly decreases along every dependency edge (for a finite graph
this is exactly the existence of a topological order). -/
def RankDecreasing (store : Nat → TemplateObj) (rank : Nat → Nat) : Prop :=
  ∀ i, ∀ j ∈ preparedDeps (store i), rank j < rank i

/-- Acyclicity of the dependency graph collapsed by template name: a rank
on names that strictly decreases along every dependency edge. -/
def NameRankDecreasing (store : Nat → TemplateObj) (nrank : String → Nat) : Prop :=
  ∀ i, ∀ j ∈ preparedDeps (store i), nrank (store j).name < nrank (store i).name

/-- An upper bound for `rank` over a root list. -/
def rankBound (rank : Nat → Nat) (roots : List Nat) : Nat :=
  roots.foldr (fun i m => max (rank i) m) 0

/-- Store for the duplicate-name scenario: roots `R1`, `R2` whose
dependencies (objects `2` and `3`) are distinct instances sharing the
name `D`. -/
def dupNameStore : Nat → TemplateObj := fun i =>
  if i = 0 then ⟨"R1", [2], [], [], "R1Res"⟩
  else if i = 1 then ⟨"R2", [3], [], [], "R2Res"⟩
  else if i = 2 then ⟨"D", [], [], [], "DResFirst"⟩
  else if i = 3 then ⟨"D", [], [], [], "DResSecond"⟩
  else ⟨"", [], [], [], ""⟩

/-- Store in which the single instance `2` is referenced as a dependency
of both roots. -/
def sharedDepStore : Nat → TemplateObj := fun i =>
  if i = 0 then ⟨"R1", [2], [], [], "R1Res"⟩
  else if i = 1 then ⟨"R2", [2], [], [], "R2Res"⟩
  else if i = 2 then ⟨"D", [], [], [], "DRes"⟩
  else ⟨"", [], [], [], ""⟩

/-- Store whose root has no declared dependencies; its `prepare_test`
hook appends dependency `1`. -/
def hookStore : Nat → TemplateObj := fun i =>
  if i = 0 then ⟨"A", [], [1], [], "ARes"⟩
  else if i = 1 then ⟨"B", [], [], [], "BRes"⟩
  else ⟨"", [], [], [], ""⟩

/-- Store with a reference-level dependency cycle: template `0` depends
on itself. -/
def cycleStore : Nat → TemplateObj := fun i =>
  if i = 0 then ⟨"A", [0], [], [], "ARes"⟩
  else ⟨"", [], [], [], ""⟩

/-- A two-template acyclic chain: `root` (with parameters) depends on
`leaf` (without). -/
def chainStore : Nat → TemplateObj := fun i =>
  if i = 0 then ⟨"root", [1], [], [("Env", "test")], "rootRes"⟩
  else if i = 1 then ⟨"leaf", [], [], [], "leafRes"⟩
  else ⟨"", [], [], [], ""⟩

/-- Identity rank witnessing that `chainStore` is acyclic. -/
def chainRank : Nat → Nat := fun i => if i = 0 then 1 else 0

/-- Name rank witnessing that `chainStore` is acyclic by name. -/
def chainNameRank : String → Nat := fun s => if s = "root" then 1 else 0

/-- A benign failure-capture result, for runs where the capture
completes. -/
def someCapture : Except CaptureErr CaptureReport :=
  Except.ok ⟨"JetstreamTest1", "ROLLBACK_IN_PROGRESS", "No reason found", []⟩

/-- The status script of testable property 5. -/
def rollbackScript : List String :=
  ["CREATE_IN_PROGRESS", "ROLLBACK_IN_PROGRESS", "ROLLBACK_COMPLETE"]

/-- Capture environment in which `describe_stack_events` raises. -/
def eventsFailEnv : CaptureEnv :=
  ⟨false, "JetstreamTest1", "ROLLBACK_IN_PROGRESS", none, true, []⟩

/-- What a successful `_recurse_dependencies(ids)` call guarantees about
its returned dict `d` and `prepare_test` trace `tr`: every listed id is
visited, the visited set is closed under dependency edges and contained
in the reachable set, the dict keys are exactly the names of the visited
templates, appear once each, and map to templates carrying them. -/
def FlattenSpec (store : Nat → TemplateObj) (ids : List Nat) (d : Dict)
    (tr : List Nat) : Prop :=
  (∀ i ∈ ids, i ∈ tr) ∧
  (∀ i ∈ tr, ∀ j ∈ preparedDeps (store i), j ∈ tr) ∧
  (∀ i ∈ tr, Reaches store ids i) ∧
  (∀ k, (dictGet d k).isSome = true ↔ ∃ i, i ∈ tr ∧ (store i).name = k) ∧
  DictKeysNodup d ∧ DictNamesMatch store d

theorem dictGet_isSome_iff_mem (d : Dict) (k : String) :
    (dictGet d k).isSome = true ↔ k ∈ d.map Prod.fst := by
  induction d with
  | nil => simp [dictGet]
  | cons p rest ih =>
      obtain ⟨k1, v1⟩ := p
      by_cases h : k1 = k
      · subst h
        simp [dictGet]
      · simp [dictGet, h, ih, Ne.symm h]

theorem dictGet_set_isSome (d : Dict) (k : String) (v : Nat) (k' : String) :
    (dictGet (dictSet d k v) k').isSome = true ↔
      (k' = k ∨ (dictGet d k').isSome = true) := by
  induction d with
  | nil =>
      by_cases h : k = k'
      · subst h
        simp [dictSet, dictGet]
      · simp [dictSet, dictGet, h]
        exact fun hh => h hh.symm
  | cons p rest ih =>
      obtain ⟨k1, v1⟩ := p
      by_cases h : k1 = k
      · subst h
        by_cases h' : k1 = k'
        · subst h'
          simp [dictSet, dictGet]
        · simp [dictSet, dictGet, h']
          exact fun hh => absurd hh.symm h'
      · by_cases h' : k1 = k'
        · subst h'
          simp [dictSet, dictGet, h]
        · simp [dictSet, dictGet, h, h', ih]

theorem dictSet_map_fst (d : Dict) (k : String) (v : Nat) :
    (dictSet d k v).map Prod.fst =
      if (dictGet d k).isSome then d.map Prod.fst else d.map Prod.fst ++ [k] := by
  induction d with
  | nil => simp [dictSet, dictGet]
  | cons p rest ih =>
      obtain ⟨k1, v1⟩ := p
      by_cases h : k1 = k
      · subst h
        simp [dictSet, dictGet]
      · simp only [dictSet, dictGet, if_neg h, List.map_cons, ih]
        by_cases hs : (dictGet rest k).isSome
        · simp [hs]
        · simp [hs]

theorem dictSet_keysNodup (d : Dict) (k : String) (v : Nat)
    (h : DictKeysNodup d) : DictKeysNodup (dictSet d k v) := by
  unfold DictKeysNodup at *
  rw [dictSet_map_fst]
  by_cases hs : (dictGet d k).isSome
  · simpa [hs] using h
  · have hk : k ∉ d.map Prod.fst := by
      intro hmem
      exact hs ((dictGet_isSome_iff_mem d k).mpr hmem)
    simp [hs, List.nodup_append, h, hk]

theorem dictSet_mem {d : Dict} {k : String} {v : Nat} {p : String × Nat} :
    p ∈ dictSet d k v → p ∈ d ∨ p = (k, v) := by
  induction d with
  | nil => intro h; simpa [dictSet] using h
  | cons q rest ih =>
      intro h
      obtain ⟨k1, v1⟩ := q
      by_cases hk : k1 = k
      · subst hk
        simp [dictSet] at h
        rcases h with h1 | h1
        · exact Or.inr (by simp [h1])
        · exact Or.inl (List.mem_cons_of_mem _ h1)
      · simp [dictSet, hk] at h
        rcases h with h1 | h1
        · exact Or.inl (by simp [h1])
        · rcases ih h1 with h' | h'
          · exact Or.inl (List.mem_cons_of_mem _ h')
          · exact Or.inr h'

theorem dictUpdate_get_isSome (d2 d : Dict) (k : String) :
    (dictGet (dictUpdate d d2) k).isSome = true ↔
      ((dictGet d k).isSome = true ∨ (dictGet d2 k).isSome = true) := by
  induction d2 generalizing d with
  | nil => simp [dictUpdate, dictGet]
  | cons p rest ih =>
      obtain ⟨k2, v2⟩ := p
      have hstep : dictUpdate d ((k2, v2) :: rest) = dictUpdate (dictSet d k2 v2) rest := rfl
      rw [hstep, ih, dictGet_set_isSome]
      by_cases h : k2 = k
      · subst h
        simp [dictGet]
      · simp [dictGet, h, fun hh : k = k2 => h hh.symm]
        tauto

theorem dictUpdate_keysNodup (d2 d : Dict) (h : DictKeysNodup d) :
    DictKeysNodup (dictUpdate d d2) := by
  induction d2 generalizing d with
  | nil => exact h
  | cons p rest ih => exact ih (dictSet d p.1 p.2) (dictSet_keysNodup d p.1 p.2 h)

theorem dictNamesMatch_set {store : Nat → TemplateObj} {d : Dict} {k : String}
    {v : Nat} (h : DictNamesMatch store d) (hv : (store v).name = k) :
    DictNamesMatch store (dictSet d k v) := by
  intro p hp
  rcases dictSet_mem hp with h' | h'
  · exact h p h'
  · subst h'
    exact hv

theorem dictNamesMatch_update {store : Nat → TemplateObj} (d2 : Dict) {d : Dict}
    (h : DictNamesMatch store d) (h2 : DictNamesMatch store d2) :
    DictNamesMatch store (dictUpdate d d2) := by
  induction d2 generalizing d with
  | nil => exact h
  | cons p rest ih =>
      exact ih (dictNamesMatch_set h (h2 p (List.mem_cons_self p rest)))
        (fun q hq => h2 q (List.mem_cons_of_mem p hq))

theorem dictValues_names {store : Nat → TemplateObj} {d : Dict}
    (h : DictNamesMatch store d) :
    (d.map Prod.snd).map (fun i => (store i).name) = d.map Prod.fst := by
  induction d with
  | nil => rfl
  | cons p rest ih =>
      simp only [List.map_cons, List.map_map]
      rw [h p (List.mem_cons_self p rest)]
      have := ih (fun q hq => h q (List.mem_cons_of_mem p hq))
      simp only [List.map_map] at this
      rw [this]

theorem reaches_mono {store : Nat → TemplateObj} {roots roots' : List Nat}
    (hsub : ∀ i ∈ roots, i ∈ roots') {i : Nat} (h : Reaches store roots i) :
    Reaches store roots' i := by
  induction h with
  | root hm => exact Reaches.root (hsub _ hm)
  | step _ hdep ih => exact Reaches.step ih hdep

theorem reaches_lift {store : Nat → TemplateObj} {ids : List Nat} {i j : Nat}
    (hi : i ∈ ids) (h : Reaches store (preparedDeps (store i)) j) :
    Reaches store ids j := by
  induction h with
  | root hm => exact Reaches.step (Reaches.root hi) hm
  | step _ hdep ih => exact Reaches.step ih hdep

theorem isEmpty_true_eq_nil {α : Type} {l : List α} (h : l.isEmpty = true) :
    l = [] := by
  cases l with
  | nil => rfl
  | cons a as => simp [List.isEmpty] at h

theorem isEmpty_false_ne_nil {α : Type} {l : List α} (h : l.isEmpty = false) :
    l ≠ [] := by
  cases l with
  | nil => simp [List.isEmpty] at h
  | cons a as => simp

theorem recurseStep_cons_empty {recur : List Nat → Option (Dict × List Nat)}
    {store : Nat → TemplateObj} {i : Nat} {rest : List Nat} {acc : Dict}
    {trace : List Nat} (hemp : (preparedDeps (store i)).isEmpty = true) :
    recurseStep recur store (i :: rest) acc trace =
      recurseStep recur store rest
        (if (dictGet acc (store i).name).isSome then acc
         else dictSet acc (store i).name i) (trace ++ [i]) := by
  simp [recurseStep, hemp]

theorem recurseStep_cons_deps {recur : List Nat → Option (Dict × List Nat)}
    {store : Nat → TemplateObj} {i : Nat} {rest : List Nat} {acc : Dict}
    {trace : List Nat} {sub : Dict} {subTr : List Nat}
    (hemp : (preparedDeps (store i)).isEmpty = false)
    (hr : recur (preparedDeps (store i)) = some (sub, subTr)) :
    recurseStep recur store (i :: rest) acc trace =
      recurseStep recur store rest
        (dictUpdate (if (dictGet acc (store i).name).isSome then acc
                     else dictSet acc (store i).name i) sub)
        ((trace ++ [i]) ++ subTr) := by
  simp [recurseStep, hemp, hr]

theorem recurseStep_cons_none {recur : List Nat → Option (Dict × List Nat)}
    {store : Nat → TemplateObj} {i : Nat} {rest : List Nat} {acc : Dict}
    {trace : List Nat} (hemp : (preparedDeps (store i)).isEmpty = false)
    (hr : recur (preparedDeps (store i)) = none) :
    recurseStep recur store (i :: rest) acc trace = none := by
  simp [recurseStep, hemp, hr]

theorem dictGet_insertIfAbsent_isSome (acc : Dict) (k0 : String) (v : Nat)
    (k : String) :
    (dictGet (if (dictGet acc k0).isSome then acc else dictSet acc k0 v) k).isSome
        = true ↔ (k = k0 ∨ (dictGet acc k).isSome = true) := by
  by_cases hp : (dictGet acc k0).isSome = true
  · simp only [if_pos hp]
    constructor
    · exact Or.inr
    · rintro (rfl | hk)
      · exact hp
      · exact hk
  · simp only [if_neg hp, dictGet_set_isSome]

theorem insertIfAbsent_keysNodup {acc : Dict} (k0 : String) (v : Nat)
    (h : DictKeysNodup acc) :
    DictKeysNodup (if (dictGet acc k0).isSome then acc else dictSet acc k0 v) := by
  by_cases hp : (dictGet acc k0).isSome = true
  · simpa [if_pos hp] using h
  · simpa [if_neg hp] using dictSet_keysNodup acc k0 v h

theorem insertIfAbsent_namesMatch {store : Nat → TemplateObj} {acc : Dict}
    {k0 : String} {v : Nat} (h : DictNamesMatch store acc)
    (hv : (store v).name = k0) :
    DictNamesMatch store
      (if (dictGet acc k0).isSome then acc else dictSet acc k0 v) := by
  by_cases hp : (dictGet acc k0).isSome = true
  · simpa [if_pos hp] using h
  · simpa [if_neg hp] using dictNamesMatch_set h hv

theorem recurseStep_spec {store : Nat → TemplateObj}
    {recur : List Nat → Option (Dict × List Nat)}
    (hrec : ∀ ids d tr, recur ids = some (d, tr) → FlattenSpec store ids d tr) :
    ∀ ids acc trace d tr, recurseStep recur store ids acc trace = some (d, tr) →
      ∃ vis, tr = trace ++ vis ∧
        (∀ i ∈ ids, i ∈ vis) ∧
        (∀ i ∈ vis, ∀ j ∈ preparedDeps (store i), j ∈ vis) ∧
        (∀ i ∈ vis, Reaches store ids i) ∧
        (∀ k, (dictGet d k).isSome = true ↔
          ((dictGet acc k).isSome = true ∨ ∃ i, i ∈ vis ∧ (store i).name = k)) ∧
        (DictKeysNodup acc → DictKeysNodup d) ∧
        (DictNamesMatch store acc → DictNamesMatch store d) := by
  intro ids
  induction ids with
  | nil =>
      intro acc trace d tr h
      simp only [recurseStep, Option.some.injEq, Prod.mk.injEq] at h
      obtain ⟨h1, h2⟩ := h
      subst h1
      subst h2
      refine ⟨[], by simp, by simp, by simp, by simp, ?_, fun hn => hn, fun hm => hm⟩
      intro k
      simp
  | cons i rest ih =>
      intro acc trace d tr h
      by_cases hemp : (preparedDeps (store i)).isEmpty = true
      · rw [recurseStep_cons_empty hemp] at h
        obtain ⟨vis', hv1, hv2, hv3, hv4, hv5, hv6, hv7⟩ := ih _ _ _ _ h
        have hnil : preparedDeps (store i) = [] := isEmpty_true_eq_nil hemp
        refine ⟨i :: vis', ?_, ?_, ?_, ?_, ?_, ?_, ?_⟩
        · simp [hv1]
        · intro x hx
          rcases List.mem_cons.mp hx with rfl | hx'
          · exact List.mem_cons_self _ _
          · exact List.mem_cons_of_mem _ (hv2 _ hx')
        · intro x hx j hj
          rcases List.mem_cons.mp hx with rfl | hx'
          · rw [hnil] at hj
            exact absurd hj (List.not_mem_nil j)
          · exact List.mem_cons_of_mem _ (hv3 _ hx' _ hj)
        · intro x hx
          rcases List.mem_cons.mp hx with rfl | hx'
          · exact Reaches.root (List.mem_cons_self _ _)
          · exact reaches_mono (fun y hy => List.mem_cons_of_mem _ hy) (hv4 _ hx')
        · intro k
          rw [hv5 k, dictGet_insertIfAbsent_isSome]
          constructor
          · rintro ((rfl | hacc) | ⟨x, hx, hn⟩)
            · exact Or.inr ⟨i, List.mem_cons_self _ _, rfl⟩
            · exact Or.inl hacc
            · exact Or.inr ⟨x, List.mem_cons_of_mem _ hx, hn⟩
          · rintro (hacc | ⟨x, hx, hn⟩)
            · exact Or.inl (Or.inr hacc)
            · rcases List.mem_cons.mp hx with rfl | hx'
              · exact Or.inl (Or.inl hn.symm)
              · exact Or.inr ⟨x, hx', hn⟩
        · exact fun hn => hv6 (insertIfAbsent_keysNodup _ _ hn)
        · exact fun hm => hv7 (insertIfAbsent_namesMatch hm rfl)
      · have hemp' : (preparedDeps (store i)).isEmpty = false :=
          Bool.not_eq_true _ ▸ (by simpa using hemp)
        cases hr : recur (preparedDeps (store i)) with
        | none =>
            rw [recurseStep_cons_none hemp' hr] at h
            exact absurd h (by simp)
        | some p =>
            obtain ⟨sub, subTr⟩ := p
            rw [recurseStep_cons_deps hemp' hr] at h
            obtain ⟨vis', hv1, hv2, hv3, hv4, hv5, hv6, hv7⟩ := ih _ _ _ _ h
            obtain ⟨hs1, hs2, hs3, hs4, hs5, hs6⟩ := hrec _ _ _ hr
            refine ⟨i :: (subTr ++ vis'), ?_, ?_, ?_, ?_, ?_, ?_, ?_⟩
            · simp [hv1]
            · intro x hx
              rcases List.mem_cons.mp hx with rfl | hx'
              · exact List.mem_cons_self _ _
              · exact List.mem_cons_of_mem _
                  (List.mem_append_right _ (hv2 _ hx'))
            · intro x hx j hj
              rcases List.mem_cons.mp hx with rfl | hx'
              · exact List.mem_cons_of_mem _ (List.mem_append_left _ (hs1 _ hj))
              · rcases List.mem_append.mp hx' with hxs | hxv
                · exact List.mem_cons_of_mem _
                    (List.mem_append_left _ (hs2 _ hxs _ hj))
                · exact List.mem_cons_of_mem _
                    (List.mem_append_right _ (hv3 _ hxv _ hj))
            · intro x hx
              rcases List.mem_cons.mp hx with rfl | hx'
              · exact Reaches.root (List.mem_cons_self _ _)
              · rcases List.mem_append.mp hx' with hxs | hxv
                · exact reaches_lift (List.mem_cons_self _ _) (hs3 _ hxs)
                · exact reaches_mono (fun y hy => List.mem_cons_of_mem _ hy)
                    (hv4 _ hxv)
            · intro k
              rw [hv5 k, dictUpdate_get_isSome, dictGet_insertIfAbsent_isSome,
                hs4 k]
              constructor
              · rintro (((rfl | hacc) | ⟨x, hx, hn⟩) | ⟨x, hx, hn⟩)
                · exact Or.inr ⟨i, List.mem_cons_self _ _, rfl⟩
                · exact Or.inl hacc
                · exact Or.inr
                    ⟨x, List.mem_cons_of_mem _ (List.mem_append_left _ hx), hn⟩
                · exact Or.inr
                    ⟨x, List.mem_cons_of_mem _ (List.mem_append_right _ hx), hn⟩
              · rintro (hacc | ⟨x, hx, hn⟩)
                · exact Or.inl (Or.inl (Or.inr hacc))
                · rcases List.mem_cons.mp hx with rfl | hx'
                  · exact Or.inl (Or.inl (Or.inl hn.symm))
                  · rcases List.mem_append.mp hx' with hxs | hxv
                    · exact Or.inl (Or.inr ⟨x, hxs, hn⟩)
                    · exact Or.inr ⟨x, hxv, hn⟩
            · exact fun hn =>
                hv6 (dictUpdate_keysNodup sub _ (insertIfAbsent_keysNodup _ _ hn))
            · exact fun hm =>
                hv7 (dictNamesMatch_update sub
                  (insertIfAbsent_namesMatch hm rfl) hs6)

theorem recurseDependencies_spec (store : Nat → TemplateObj) :
    ∀ fuel ids d tr, recurseDependencies store fuel ids = some (d, tr) →
      FlattenSpec store ids d tr := by
  intro fuel
  induction fuel with
  | zero => intro ids d tr h; simp [recurseDependencies] at h
  | succ f ihf =>
      intro ids d tr h
      obtain ⟨vis, hv1, hv2, hv3, hv4, hv5, hv6, hv7⟩ :=
        recurseStep_spec ihf ids [] [] d tr h
      simp only [List.nil_append] at hv1
      subst hv1
      refine ⟨hv2, hv3, hv4, ?_, ?_, ?_⟩
      · intro k
        rw [hv5 k]
        simp [dictGet]
      · exact hv6 (by simp [DictKeysNodup])
      · exact hv7 (fun p hp => absurd hp (List.not_mem_nil p))

theorem reaches_mem_trace {store : Nat → TemplateObj} {ids : List Nat}
    {d : Dict} {tr : List Nat} (hspec : FlattenSpec store ids d tr) :
    ∀ i, Reaches store ids i → i ∈ tr := by
  intro i h
  induction h with
  | root hm => exact hspec.1 _ hm
  | step _ hdep ihr => exact hspec.2.1 _ ihr _ hdep

theorem recurseStep_total {store : Nat → TemplateObj}
    {recur : List Nat → Option (Dict × List Nat)} :
    ∀ ids, (∀ i ∈ ids, (preparedDeps (store i)).isEmpty = true ∨
        ∃ p, recur (preparedDeps (store i)) = some p) →
      ∀ acc trace, ∃ q, recurseStep recur store ids acc trace = some q := by
  intro ids
  induction ids with
  | nil => intro _ acc trace; exact ⟨(acc, trace), rfl⟩
  | cons i rest ih =>
      intro hall acc trace
      rcases hall i (List.mem_cons_self _ _) with hemp | ⟨⟨sub, subTr⟩, hr⟩
      · rw [recurseStep_cons_empty hemp]
        exact ih (fun j hj => hall j (List.mem_cons_of_mem _ hj)) _ _
      · by_cases hemp : (preparedDeps (store i)).isEmpty = true
        · rw [recurseStep_cons_empty hemp]
          exact ih (fun j hj => hall j (List.mem_cons_of_mem _ hj)) _ _
        · have hemp' : (preparedDeps (store i)).isEmpty = false := by
            simpa using hemp
          rw [recurseStep_cons_deps hemp' hr]
          exact ih (fun j hj => hall j (List.mem_cons_of_mem _ hj)) _ _

theorem recurseDependencies_total {store : Nat → TemplateObj} {rank : Nat → Nat}
    (hrank : RankDecreasing store rank) :
    ∀ fuel ids, 0 < fuel → (∀ i ∈ ids, rank i < fuel) →
      ∃ q, recurseDependencies store fuel ids = some q := by
  intro fuel
  induction fuel with
  | zero => intro ids h; exact absurd h (by simp)
  | succ f ihf =>
      intro ids _ hbound
      show ∃ q, recurseStep (recurseDependencies store f) store ids [] [] = some q
      refine recurseStep_total ids ?_ [] []
      intro i hi
      by_cases hemp : (preparedDeps (store i)).isEmpty = true
      · exact Or.inl hemp
      · refine Or.inr ?_
        have hne : preparedDeps (store i) ≠ [] := by
          intro hnil
          exact hemp (by simp [hnil])
        obtain ⟨j0, hj0⟩ := List.exists_mem_of_ne_nil _ hne
        have hposf : 0 < f := by
          have h1 : rank j0 < rank i := hrank i j0 hj0
          have h2 : rank i < f + 1 := hbound i hi
          omega
        refine ihf _ hposf ?_
        intro j hj
        have h1 : rank j < rank i := hrank i j hj
        have h2 : rank i < f + 1 := hbound i hi
        omega

theorem rank_le_rankBound (rank : Nat → Nat) :
    ∀ roots, ∀ i ∈ roots, rank i ≤ rankBound rank roots := by
  intro roots
  induction roots with
  | nil => intro i hi; exact absurd hi (List.not_mem_nil i)
  | cons r rest ih =>
      intro i hi
      rcases List.mem_cons.mp hi with rfl | hi'
      · exact le_max_left _ _
      · exact le_trans (ih i hi') (le_max_right _ _)

theorem charsStartWith_of_append (p q s : List Char)
    (h : charsStartWith (p ++ q) s = true) : charsStartWith p s = true := by
  induction p generalizing s with
  | nil => rfl
  | cons a ps ihp =>
      cases s with
      | nil => simp [charsStartWith] at h
      | cons c cs =>
          simp only [List.cons_append, charsStartWith, Bool.and_eq_true] at h ⊢
          exact ⟨h.1, ihp cs h.2⟩

theorem charsContain_of_append (p q s : List Char)
    (h : charsContain (p ++ q) s = true) : charsContain p s = true := by
  induction s with
  | nil =>
      simp only [charsContain] at h ⊢
      exact charsStartWith_of_append p q [] h
  | cons c cs ihs =>
      simp only [charsContain, Bool.or_eq_true] at h ⊢
      rcases h with h | h
      · exact Or.inl (charsStartWith_of_append p q _ h)
      · exact Or.inr (ihs h)

theorem strContains_rollback_of_failed {s : String}
    (h : strContains s "ROLLBACK_FAILED" = true) :
    strContains s "ROLLBACK" = true := by
  have e : ("ROLLBACK_FAILED".toList : List Char) =
      "ROLLBACK".toList ++ "_FAILED".toList := by decide
  unfold strContains at h ⊢
  rw [e] at h
  exact charsContain_of_append _ _ _ h

theorem waitGo_complete {cap : Except CaptureErr CaptureReport} {s : String}
    {rest : List String} {flag : Bool} {caps obs : List String} {sleeps : Nat}
    (hC : strContains s "COMPLETE" = true) :
    waitGo cap (s :: rest) flag caps obs sleeps =
      Except.ok ⟨!flag, caps, obs ++ [s], sleeps⟩ := by
  simp [waitGo, hC]

theorem waitGo_skip {cap : Except CaptureErr CaptureReport} {s : String}
    {rest : List String} {flag : Bool} {caps obs : List String} {sleeps : Nat}
    (hC : strContains s "COMPLETE" = false)
    (hRF : strContains s "ROLLBACK_FAILED" = false)
    (hR : (strContains s "ROLLBACK" && !flag) = false) :
    waitGo cap (s :: rest) flag caps obs sleeps =
      waitGo cap rest flag caps (obs ++ [s]) (sleeps + 1) := by
  simp [waitGo, hC, hRF, hR]

theorem waitGo_rollback_step {r : CaptureReport} {s : String}
    {rest : List String} {caps obs : List String} {sleeps : Nat}
    (hC : strContains s "COMPLETE" = false)
    (hR : strContains s "ROLLBACK" = true)
    (hRF : strContains s "ROLLBACK_FAILED" = false) :
    waitGo (Except.ok r) (s :: rest) false caps obs sleeps =
      waitGo (Except.ok r) rest true (caps ++ [s]) (obs ++ [s]) (sleeps + 1) := by
  simp [waitGo, hC, hR, hRF]

theorem waitGo_rollback_failed_first {r : CaptureReport} {s : String}
    {rest : List String} {caps obs : List String} {sleeps : Nat}
    (hC : strContains s "COMPLETE" = false)
    (hRF : strContains s "ROLLBACK_FAILED" = true) :
    waitGo (Except.ok r) (s :: rest) false caps obs sleeps =
      Except.ok ⟨false, caps ++ [s], obs ++ [s], sleeps⟩ := by
  simp [waitGo, hC, hRF, strContains_rollback_of_failed hRF]

theorem waitGo_rollback_failed_flagged {cap : Except CaptureErr CaptureReport}
    {s : String} {rest : List String} {caps obs : List String} {sleeps : Nat}
    (hC : strContains s "COMPLETE" = false)
    (hRF : strContains s "ROLLBACK_FAILED" = true) :
    waitGo cap (s :: rest) true caps obs sleeps =
      Except.ok ⟨false, caps, obs ++ [s], sleeps⟩ := by
  simp [waitGo, hC, hRF]

theorem waitGo_capture_fails {e : CaptureErr} {s : String}
    {rest : List String} {caps obs : List String} {sleeps : Nat}
    (hC : strContains s "COMPLETE" = false)
    (hR : strContains s "ROLLBACK" = true) :
    waitGo (Except.error e) (s :: rest) false caps obs sleeps =
      Except.error (WaitError.captureErr e) := by
  simp [waitGo, hC, hR]

theorem waitGo_complete_exit (cap : Except CaptureErr CaptureReport)
    (pre : List String) (s : String) (rest : List String)
    (hpre : ∀ x ∈ pre,
      strContains x "COMPLETE" = false ∧ strContains x "ROLLBACK" = false)
    (hsC : strContains s "COMPLETE" = true) :
    ∀ caps obs sleeps, waitGo cap (pre ++ s :: rest) false caps obs sleeps =
      Except.ok ⟨true, caps, obs ++ (pre ++ [s]), sleeps + pre.length⟩ := by
  induction pre with
  | nil =>
      intro caps obs sleeps
      rw [List.nil_append, waitGo_complete hsC]
      simp
  | cons x pre' ihp =>
      intro caps obs sleeps
      obtain ⟨hxC, hxR⟩ := hpre x (List.mem_cons_self _ _)
      have hxRF : strContains x "ROLLBACK_FAILED" = false := by
        cases hrf : strContains x "ROLLBACK_FAILED" with
        | false => rfl
        | true => rw [strContains_rollback_of_failed hrf] at hxR; exact hxR
      rw [List.cons_append, waitGo_skip hxC hxRF (by simp [hxR]),
        ihp (fun y hy => hpre y (List.mem_cons_of_mem _ hy)) caps (obs ++ [x])
          (sleeps + 1)]
      simp only [Except.ok.injEq, WaitOutcome.mk.injEq, List.append_assoc,
        List.cons_append, List.nil_append, List.length_cons, true_and]
      omega

theorem waitGo_rollback_failed_exit (r : CaptureReport)
    (pre : List String) (s : String) (rest : List String)
    (hpre : ∀ x ∈ pre, strContains x "COMPLETE" = false ∧
      strContains x "ROLLBACK_FAILED" = false)
    (hs1 : strContains s "ROLLBACK_FAILED" = true)
    (hs2 : strContains s "COMPLETE" = false) :
    ∀ flag caps obs sleeps, ∃ caps',
      waitGo (Except.ok r) (pre ++ s :: rest) flag caps obs sleeps =
        Except.ok ⟨false, caps', obs ++ (pre ++ [s]), sleeps + pre.length⟩ := by
  induction pre with
  | nil =>
      intro flag caps obs sleeps
      cases flag with
      | false =>
          refine ⟨caps ++ [s], ?_⟩
          rw [List.nil_append, waitGo_rollback_failed_first hs2 hs1]
          simp
      | true =>
          refine ⟨caps, ?_⟩
          rw [List.nil_append, waitGo_rollback_failed_flagged hs2 hs1]
          simp
  | cons x pre' ihp =>
      intro flag caps obs sleeps
      obtain ⟨hxC, hxRF⟩ := hpre x (List.mem_cons_self _ _)
      cases hxR : (strContains x "ROLLBACK" && !flag) with
      | false =>
          obtain ⟨caps', hc⟩ :=
            ihp (fun y hy => hpre y (List.mem_cons_of_mem _ hy)) flag caps
              (obs ++ [x]) (sleeps + 1)
          refine ⟨caps', ?_⟩
          rw [List.cons_append, waitGo_skip hxC hxRF hxR, hc]
          simp only [Except.ok.injEq, WaitOutcome.mk.injEq, List.append_assoc,
            List.cons_append, List.nil_append, List.length_cons, true_and]
          omega
      | true =>
          have hxR2 := hxR
          rw [Bool.and_eq_true] at hxR2
          obtain ⟨hxRt, hflag⟩ := hxR2
          have hflag' : flag = false := by
            cases flag with
            | false => rfl
            | true => simp at hflag
          subst hflag'
          obtain ⟨caps', hc⟩ :=
            ihp (fun y hy => hpre y (List.mem_cons_of_mem _ hy)) true
              (caps ++ [x]) (obs ++ [x]) (sleeps + 1)
          refine ⟨caps', ?_⟩
          rw [List.cons_append, waitGo_rollback_step hxC hxRt hxRF, hc]
          simp only [Except.ok.injEq, WaitOutcome.mk.injEq, List.append_assoc,
            List.cons_append, List.nil_append, List.length_cons, true_and]
          omega

/-- C1 (counterexample): in `dupNameStore`, the instances `2` and `3` are
distinct templates sharing the name `D`; the depth-first traversal
(trace `[0, 2, 1, 3]`) encounters instance `2` first, yet the flattened
dict retains instance `3` — `dict.update` overwrites the earlier entry, so
the first-seen instance is NOT the one retained. -/
theorem claim1_counterexample :
    recurseDependencies dupNameStore 2 [0, 1] =
      some ([("R1", 0), ("D", 3), ("R2", 1)], [0, 2, 1, 3]) ∧
    (dupNameStore 2).name = "D" ∧ (dupNameStore 3).name = "D" ∧
    dupNameStore 2 ≠ dupNameStore 3 ∧
    List.find? (fun i => (dupNameStore i).name == "D") [0, 2, 1, 3] = some 2 ∧
    dictGet [("R1", 0), ("D", 3), ("R2", 1)] "D" = some 3 :=
  ⟨by decide, by decide, by decide, by decide, by decide, by decide⟩

/-- C1 (amended): when two distinct template instances share a name, the
flattened collection still contains exactly one entry for that name (the
dict keys are pairwise distinct), but the retained instance is not
necessarily the first one encountered: a nested recursion's result is
merged with `dict.update`, whose entries overwrite same-named entries
already in the accumulator, so in the two-roots example the
later-encountered duplicate (instance `3`) is the one retained. -/
theorem claim1_amended :
    (∀ (store : Nat → TemplateObj) (fuel : Nat) (roots : List Nat) (d : Dict)
      (tr : List Nat), recurseDependencies store fuel roots = some (d, tr) →
        DictKeysNodup d) ∧
    (recurseDependencies dupNameStore 2 [0, 1]).map
      (fun p => dictGet p.1 "D") = some (some 3) :=
  ⟨fun store fuel roots d tr h =>
    (recurseDependencies_spec store fuel roots d tr h).2.2.2.2.1,
   by decide⟩

/-- C1 (witness): the amended uniqueness applies to the concrete run on
`dupNameStore`, whose resulting keys `R1`, `D`, `R2` are pairwise
distinct. -/
theorem claim1_witness : DictKeysNodup [("R1", 0), ("D", 3), ("R2", 1)] :=
  claim1_amended.1 dupNameStore 2 [0, 1] [("R1", 0), ("D", 3), ("R2", 1)]
    [0, 2, 1, 3] (by decide)

/-- C3: for any store whose dependency graph is acyclic by name (witnessed
by a rank on names that decreases along every dependency edge), flattening
terminates and returns a collection whose names are exactly the distinct
names of the templates transitively reachable from the roots, each name
appearing exactly once. -/
theorem claim3_flatten_names (store : Nat → TemplateObj) (roots : List Nat)
    (nrank : String → Nat) (hacy : NameRankDecreasing store nrank) :
    ∃ fuel flat, flattenTemplates store fuel roots = some flat ∧
      (flat.map (fun i => (store i).name)).Nodup ∧
      ∀ n, n ∈ flat.map (fun i => (store i).name) ↔
        ∃ i, Reaches store roots i ∧ (store i).name = n := by
  have hrank : RankDecreasing store (fun i => nrank (store i).name) :=
    fun i j hj => hacy i j hj
  obtain ⟨⟨d, tr⟩, hq⟩ := recurseDependencies_total hrank
    (rankBound (fun i => nrank (store i).name) roots + 1) roots (by omega)
    (fun i hi => Nat.lt_succ_of_le
      (rank_le_rankBound (fun i => nrank (store i).name) roots i hi))
  obtain ⟨hf1, hf2, hf3, hf4, hf5, hf6⟩ :=
    recurseDependencies_spec store _ _ _ _ hq
  refine ⟨rankBound (fun i => nrank (store i).name) roots + 1,
    d.map Prod.snd, ?_, ?_, ?_⟩
  · simp [flattenTemplates, hq]
  · rw [dictValues_names hf6]
    exact hf5
  · intro n
    rw [dictValues_names hf6]
    constructor
    · intro hn
      obtain ⟨i, hi, hni⟩ := (hf4 n).mp ((dictGet_isSome_iff_mem d n).mpr hn)
      exact ⟨i, hf3 i hi, hni⟩
    · rintro ⟨i, hri, hni⟩
      have hitr : i ∈ tr :=
        reaches_mem_trace ⟨hf1, hf2, hf3, hf4, hf5, hf6⟩ i hri
      exact (dictGet_isSome_iff_mem d n).mp ((hf4 n).mpr ⟨i, hitr, hni⟩)

/-- C3 (witness): the theorem applied to the concrete acyclic two-template
chain, whose name rank decreases from `root` to `leaf`. -/
theorem claim3_witness :
    ∃ fuel flat, flattenTemplates chainStore fuel [0] = some flat ∧
      (flat.map (fun i => (chainStore i).name)).Nodup ∧
      ∀ n, n ∈ flat.map (fun i => (chainStore i).name) ↔
        ∃ i, Reaches chainStore [0] i ∧ (chainStore i).name = n :=
  claim3_flatten_names chainStore [0] chainNameRank (by
    intro i j hj
    by_cases h0 : i = 0
    · subst h0
      have hj' : j = 1 := by simpa [chainStore, preparedDeps] using hj
      subst hj'
      decide
    · have hnil : preparedDeps (chainStore i) = [] := by
        by_cases h1 : i = 1
        · subst h1
          rfl
        · simp [chainStore, preparedDeps, h0, h1]
      rw [hnil] at hj
      exact absurd hj (List.not_mem_nil j))

/-- C8 (counterexample): in `sharedDepStore` the single instance `2` is a
dependency of both roots; the traversal invokes `prepare_test` on it at
every encounter, so the hook trace `[0, 2, 1, 2]` contains template `2`
twice — not exactly once. -/
theorem claim8_counterexample :
    recurseDependencies sharedDepStore 2 [0, 1] =
      some ([("R1", 0), ("D", 2), ("R2", 1)], [0, 2, 1, 2]) ∧
    ([0, 2, 1, 2] : List Nat).count 2 = 2 :=
  ⟨by decide, by decide⟩

/-- C8 (amended): the pre-flight hook is invoked at least once on every
traversed (reachable) template — once per encounter, so a template
reachable along several reference paths may be prepared more than once —
and every invocation precedes the dependency read, so dependencies the
hook appends (`addedDeps`) are themselves traversed. -/
theorem claim8_amended (store : Nat → TemplateObj) (fuel : Nat)
    (roots : List Nat) (d : Dict) (tr : List Nat)
    (h : recurseDependencies store fuel roots = some (d, tr)) :
    (∀ i, Reaches store roots i → i ∈ tr) ∧
    (∀ i ∈ tr, ∀ j ∈ (store i).addedDeps, j ∈ tr) := by
  have hspec := recurseDependencies_spec store fuel roots d tr h
  refine ⟨reaches_mem_trace hspec, ?_⟩
  intro i hi j hj
  exact hspec.2.1 i hi j (by simp [preparedDeps, hj])

/-- C8 (witness): on `hookStore`, whose root's dependency on `1` exists
only through the hook, template `1` is traversed and prepared. -/
theorem claim8_witness :
    (∀ i, Reaches hookStore [0] i → i ∈ [0, 1]) ∧
    (∀ i ∈ ([0, 1] : List Nat), ∀ j ∈ (hookStore i).addedDeps, j ∈ [0, 1]) :=
  claim8_amended hookStore 2 [0] [("A", 0), ("B", 1)] [0, 1] (by decide)

/-- C9 (counterexample): the claim asserts that acyclicity by name alone
is not sufficient for termination; in fact it is sufficient — there is no
input with a name-rank decreasing along dependency edges on which
flattening runs out of fuel at every fuel, because any name-rank induces
an identity-rank and rank-decreasing inputs terminate. -/
theorem claim9_counterexample :
    ¬ ∃ (store : Nat → TemplateObj) (roots : List Nat) (nrank : String → Nat),
      NameRankDecreasing store nrank ∧
      ∀ fuel, recurseDependencies store fuel roots = none := by
  rintro ⟨store, roots, nrank, hacy, hdiv⟩
  have hrank : RankDecreasing store (fun i => nrank (store i).name) :=
    fun i j hj => hacy i j hj
  obtain ⟨q, hq⟩ := recurseDependencies_total hrank
    (rankBound (fun i => nrank (store i).name) roots + 1) roots (by omega)
    (fun i hi => Nat.lt_succ_of_le
      (rank_le_rankBound (fun i => nrank (store i).name) roots i hi))
  rw [hdiv _] at hq
  exact Option.noConfusion hq

/-- C9 (amended): flattening terminates for every input whose dependency
references are acyclic by object identity (witnessed by a decreasing
identity rank), while a reference-level cycle — here the self-dependency
of `cycleStore` — makes the traversal recurse unboundedly (no fuel
suffices), because the recursion descends into dependency lists without
consulting the accumulated names. -/
theorem claim9_amended :
    (∀ (store : Nat → TemplateObj) (roots : List Nat) (rank : Nat → Nat),
      RankDecreasing store rank →
        ∃ fuel q, recurseDependencies store fuel roots = some q) ∧
    (∀ fuel, recurseDependencies cycleStore fuel [0] = none) := by
  constructor
  · intro store roots rank hrank
    obtain ⟨q, hq⟩ := recurseDependencies_total hrank
      (rankBound rank roots + 1) roots (by omega)
      (fun i hi => Nat.lt_succ_of_le (rank_le_rankBound rank roots i hi))
    exact ⟨_, q, hq⟩
  · intro fuel
    induction fuel with
    | zero => rfl
    | succ f ihf =>
        show recurseStep (recurseDependencies cycleStore f) cycleStore
          [0] [] [] = none
        have hemp : (preparedDeps (cycleStore 0)).isEmpty = false := by decide
        have hdeps : preparedDeps (cycleStore 0) = [0] := by decide
        exact recurseStep_cons_none hemp (by rw [hdeps]; exact ihf)

/-- C9 (witness): the termination half applied to the concrete acyclic
chain with its explicit decreasing rank. -/
theorem claim9_witness :
    ∃ fuel q, recurseDependencies chainStore fuel [0] = some q :=
  claim9_amended.1 chainStore [0] chainRank (by
    intro i j hj
    by_cases h0 : i = 0
    · subst h0
      have hj' : j = 1 := by simpa [chainStore, preparedDeps] using hj
      subst hj'
      decide
    · have hnil : preparedDeps (chainStore i) = [] := by
        by_cases h1 : i = 1
        · subst h1
          rfl
        · simp [chainStore, preparedDeps, h0, h1]
      rw [hnil] at hj
      exact absurd hj (List.not_mem_nil j))

/-- C2: for the observed status sequence `CREATE_IN_PROGRESS`,
`ROLLBACK_IN_PROGRESS`, `ROLLBACK_COMPLETE` (and any completing failure
capture), the wait loop returns `false`, the failure capture fires exactly
once — at the first rollback observation, `ROLLBACK_IN_PROGRESS` — and the
final status contains `COMPLETE`, exiting the loop while the run is still
reported failed (the negation of the failure flag). -/
theorem claim2_wait_rollback_script (r : CaptureReport) :
    waitResults (Except.ok r) rollbackScript =
      Except.ok ⟨false, ["ROLLBACK_IN_PROGRESS"], rollbackScript, 2⟩ ∧
    strContains "ROLLBACK_COMPLETE" "COMPLETE" = true :=
  ⟨rfl, by decide⟩

/-- C2 (witness): the theorem at a concrete capture report. -/
theorem claim2_witness :
    waitResults (Except.ok ⟨"JetstreamTest1", "ROLLBACK_IN_PROGRESS",
        "No reason found", []⟩) rollbackScript =
      Except.ok ⟨false, ["ROLLBACK_IN_PROGRESS"], rollbackScript, 2⟩ ∧
    strContains "ROLLBACK_COMPLETE" "COMPLETE" = true :=
  claim2_wait_rollback_script
    ⟨"JetstreamTest1", "ROLLBACK_IN_PROGRESS", "No reason found", []⟩

/-- C4: the failure-report capture is NOT guarded — when
`describe_stack_events` raises during the capture at the first rollback
observation, the error propagates out of `_wait_results` and the poll loop
is aborted (the remaining scripted status `ROLLBACK_COMPLETE` is never
observed), contradicting the specification's requirement that the capture
must not raise and polling continue to a terminal state. -/
theorem claim4_capture_error_aborts :
    runWait eventsFailEnv rollbackScript =
      Except.error (WaitError.captureErr CaptureErr.describeEventsErr) := rfl

/-- C5 (counterexample): a polled status containing `ROLLBACK_FAILED` does
not always make the wait return `false`: a status containing both
`ROLLBACK_FAILED` and `COMPLETE` exits at the `COMPLETE` check before the
rollback checks run, and the run is reported successful. -/
theorem claim5_counterexample :
    strContains "ROLLBACK_FAILED_COMPLETE" "ROLLBACK_FAILED" = true ∧
    waitResults someCapture ["ROLLBACK_FAILED_COMPLETE"] =
      Except.ok ⟨true, [], ["ROLLBACK_FAILED_COMPLETE"], 0⟩ :=
  ⟨by decide, rfl⟩

/-- C5 (amended): whenever the first polled status containing
`ROLLBACK_FAILED` does not also contain `COMPLETE` (and the failure
capture, if it fires, completes), the wait loop exits in that very
iteration — no further status fetch, no sleep in that iteration — and
returns `false`. -/
theorem claim5_amended (r : CaptureReport) (pre : List String) (s : String)
    (rest : List String)
    (hpre : ∀ x ∈ pre, strContains x "COMPLETE" = false ∧
      strContains x "ROLLBACK_FAILED" = false)
    (hs1 : strContains s "ROLLBACK_FAILED" = true)
    (hs2 : strContains s "COMPLETE" = false) :
    ∃ caps, waitResults (Except.ok r) (pre ++ s :: rest) =
      Except.ok ⟨false, caps, pre ++ [s], pre.length⟩ := by
  obtain ⟨caps, hc⟩ :=
    waitGo_rollback_failed_exit r pre s rest hpre hs1 hs2 false [] [] 0
  exact ⟨caps, by simpa [waitResults] using hc⟩

/-- C5 (witness): the amended claim on the spec's own example script
`UPDATE_ROLLBACK_IN_PROGRESS`, `ROLLBACK_FAILED`. -/
theorem claim5_witness :
    ∃ caps, waitResults
      (Except.ok ⟨"JetstreamTest1", "ROLLBACK_FAILED", "No reason found", []⟩)
      ["UPDATE_ROLLBACK_IN_PROGRESS", "ROLLBACK_FAILED"] =
      Except.ok ⟨false, caps,
        ["UPDATE_ROLLBACK_IN_PROGRESS", "ROLLBACK_FAILED"], 1⟩ :=
  claim5_amended ⟨"JetstreamTest1", "ROLLBACK_FAILED", "No reason found", []⟩
    ["UPDATE_ROLLBACK_IN_PROGRESS"] "ROLLBACK_FAILED" [] (by decide) (by decide)
    (by decide)

/-- C6: when the first status containing `ROLLBACK` also contains
`COMPLETE` (all earlier observations containing neither), the loop exits
on the `COMPLETE` check before the rollback check runs — no failure report
is captured (even an erroring capture is never consulted) and the run is
reported successful. -/
theorem claim6_rollback_complete_first (cap : Except CaptureErr CaptureReport)
    (pre : List String) (s : String) (rest : List String)
    (hpre : ∀ x ∈ pre, strContains x "COMPLETE" = false ∧
      strContains x "ROLLBACK" = false)
    (hsR : strContains s "ROLLBACK" = true)
    (hsC : strContains s "COMPLETE" = true) :
    waitResults cap (pre ++ s :: rest) =
      Except.ok ⟨true, [], pre ++ [s], pre.length⟩ := by
  have h := waitGo_complete_exit cap pre s rest hpre hsC [] [] 0
  simpa [waitResults] using h

/-- C6 (witness): the script `CREATE_IN_PROGRESS`, `ROLLBACK_COMPLETE`
returns success without touching the (erroring) capture. -/
theorem claim6_witness :
    waitResults (Except.error CaptureErr.describeEventsErr)
      ["CREATE_IN_PROGRESS", "ROLLBACK_COMPLETE"] =
      Except.ok ⟨true, [], ["CREATE_IN_PROGRESS", "ROLLBACK_COMPLETE"], 1⟩ :=
  claim6_rollback_complete_first (Except.error CaptureErr.describeEventsErr)
    ["CREATE_IN_PROGRESS"] "ROLLBACK_COMPLETE" [] (by decide) (by decide)
    (by decide)

/-- C7: the master manifest built from a flattened collection has exactly
one resource entry per flattened template, keyed by that template's
resource name, with `TemplateURL = bucket_url ++ "/" ++ name`, and a
`Parameters` field present exactly when the template's parameter
dictionary is non-empty. -/
theorem claim7_manifest (store : Nat → TemplateObj) (bucketUrl : String)
    (fuel : Nat) (roots : List Nat) (flat : List Nat)
    (hf : flattenTemplates store fuel roots = some flat) :
    (parentTemplate store bucketUrl flat).length = flat.length ∧
    ∀ idx (hidx : idx < flat.length),
      ∃ hm : idx < (parentTemplate store bucketUrl flat).length,
        ((parentTemplate store bucketUrl flat).get ⟨idx, hm⟩).resourceKey =
          (store (flat.get ⟨idx, hidx⟩)).resourceName ∧
        ((parentTemplate store bucketUrl flat).get ⟨idx, hm⟩).templateURL =
          bucketUrl ++ "/" ++ (store (flat.get ⟨idx, hidx⟩)).name ∧
        (((parentTemplate store bucketUrl flat).get ⟨idx, hm⟩).parameters.isSome
          = true ↔ (store (flat.get ⟨idx, hidx⟩)).params ≠ []) := by
  constructor
  · simp [parentTemplate]
  · intro idx hidx
    refine ⟨by simpa [parentTemplate] using hidx, ?_, ?_, ?_⟩
    · simp [parentTemplate, List.get_map]
    · simp [parentTemplate, List.get_map]
    · simp only [parentTemplate, List.get_map]
      by_cases hp : (store (flat.get ⟨idx, hidx⟩)).params.isEmpty = true
      · simp [hp, isEmpty_true_eq_nil hp]
      · have hp' : (store (flat.get ⟨idx, hidx⟩)).params.isEmpty = false := by
          simpa using hp
        simp [hp', isEmpty_false_ne_nil hp']

/-- C7 (witness): the manifest over the flattened chain, covering both the
parameterised root and the parameterless leaf. -/
theorem claim7_witness :
    (parentTemplate chainStore "https://s3.amazonaws.com/jetstream-test-1"
      [0, 1]).length = ([0, 1] : List Nat).length ∧
    ∀ idx (hidx : idx < ([0, 1] : List Nat).length),
      ∃ hm : idx < (parentTemplate chainStore
          "https://s3.amazonaws.com/jetstream-test-1" [0, 1]).length,
        ((parentTemplate chainStore "https://s3.amazonaws.com/jetstream-test-1"
            [0, 1]).get ⟨idx, hm⟩).resourceKey =
          (chainStore (([0, 1] : List Nat).get ⟨idx, hidx⟩)).resourceName ∧
        ((parentTemplate chainStore "https://s3.amazonaws.com/jetstream-test-1"
            [0, 1]).get ⟨idx, hm⟩).templateURL =
          "https://s3.amazonaws.com/jetstream-test-1" ++ "/" ++
            (chainStore (([0, 1] : List Nat).get ⟨idx, hidx⟩)).name ∧
        (((parentTemplate chainStore "https://s3.amazonaws.com/jetstream-test-1"
            [0, 1]).get ⟨idx, hm⟩).parameters.isSome = true ↔
          (chainStore (([0, 1] : List Nat).get ⟨idx, hidx⟩)).params ≠ []) :=
  claim7_manifest chainStore "https://s3.amazonaws.com/jetstream-test-1" 2 [0]
    [0, 1] (by decide)

/-- C10: during failure-report capture, an event whose resource status
contains `FAILED` but lacks a `ResourceStatusReason` makes the capture
raise `KeyError` (no default), whereas the stack-level status reason
defaults to the placeholder `"No reason found"` when absent. -/
theorem claim10_missing_reason (sn ss eid rs : String)
    (h : strContains rs "FAILED" = true) :
    logFailedStacks ⟨false, sn, ss, none, false, [⟨eid, some rs, none⟩]⟩ =
      Except.error CaptureErr.keyErr ∧
    logFailedStacks ⟨false, sn, ss, none, false, []⟩ =
      Except.ok ⟨sn, ss, "No reason found", []⟩ := by
  constructor
  · simp [logFailedStacks, logFailedEvents, h, Except.map]
  · rfl

/-- C10 (witness): the theorem at a concrete failed event. -/
theorem claim10_witness :
    strContains "CREATE_FAILED" "FAILED" = true ∧
    (logFailedStacks ⟨false, "JetstreamTest1", "ROLLBACK_COMPLETE", none, false,
        [⟨"evt-1", some "CREATE_FAILED", none⟩]⟩ =
      Except.error CaptureErr.keyErr ∧
    logFailedStacks ⟨false, "JetstreamTest1", "ROLLBACK_COMPLETE", none,
        false, []⟩ =
      Except.ok ⟨"JetstreamTest1", "ROLLBACK_COMPLETE", "No reason found", []⟩) :=
  ⟨by decide, claim10_missing_reason "JetstreamTest1" "ROLLBACK_COMPLETE"
    "evt-1" "CREATE_FAILED" (by decide)⟩
